import Mathlib

/-!
Verification of the UBX schema-driven decoder (ublox_gps/core.py).

The development shallowly embeds the decoder: Python byte strings become
`List Nat` (each entry one byte value), Python integers become `Nat`/`Int`,
fallible operations return `Except`, and the single piece of mutable schema
state (the repeat counter stored on a RepeatedBlock) is threaded explicitly
as a `Nat` in and out of `Message_parse`.  The source's `struct` format
strings carry no byte-order prefix, so CPython sizes and unpacks them with
NATIVE alignment (`calcsize('BHB') = 5`, not 4): the embedding computes
sizes as an offset fold that inserts alignment padding before each element,
and the unpack phase skips those pad bytes, with the x86-64 System V
native sizes and alignments (size = alignment for every numeric code,
1 for pad/char/byte-string codes, which on this ABI coincide with the
standard sizes).
-/

namespace Ublox

/-- Digit-extraction worker for `natRepr`; the fuel argument (always at
least the digit count when called from `natRepr`) keeps the recursion
structural. -/
def natReprGo : Nat → Nat → List Nat
  | 0, n => [48 + n % 10]
  | fuel + 1, n =>
    if n < 10 then [48 + n]
    else natReprGo fuel (n / 10) ++ [48 + n % 10]

/-- Decimal ASCII rendering of a natural number, as Python `str(n)` produces
for a nonnegative integer (list of ASCII byte values). -/
def natRepr (n : Nat) : List Nat := natReprGo n n

/-- Python `str((a, b))` on a pair of nonnegative integers: the ASCII bytes
of the text form, e.g. `str((181, 98))` is the 9 characters of
the tuple display.  This is what the source stores in `Parser.PREFIX`
and returns from `_generate_fletcher_checksum`. -/
def tupleRepr (a b : Nat) : List Nat :=
  [40] ++ natRepr a ++ [44, 32] ++ natRepr b ++ [41]

theorem natReprGo_ne_nil (fuel n : Nat) : natReprGo fuel n ≠ [] := by
  cases fuel with
  | zero => simp [natReprGo]
  | succ f =>
    rw [natReprGo]
    split <;> simp

theorem natRepr_ne_nil (n : Nat) : natRepr n ≠ [] := natReprGo_ne_nil n n

theorem natRepr_length_pos (n : Nat) : 0 < (natRepr n).length := by
  have h := natRepr_ne_nil n
  cases hn : natRepr n with
  | nil => exact absurd hn h
  | cons a l => simp

theorem tupleRepr_length_ge (a b : Nat) : 6 ≤ (tupleRepr a b).length := by
  have ha := natRepr_length_pos a
  have hb := natRepr_length_pos b
  simp [tupleRepr]
  omega

/-- The running-sum pair of `Parser._generate_fletcher_checksum`:
`check_a = (check_a + byte) mod 256`, `check_b = (check_b + check_a) mod 256`
over the given bytes. -/
def fletcherPair (payload : List Nat) : Nat × Nat :=
  payload.foldl (fun ab c =>
    let a := (ab.1 + c) % 256
    (a, (ab.2 + a) % 256)) (0, 0)

/-- `Parser._generate_fletcher_checksum`: the source returns
`str((check_a, check_b))`, i.e. the textual tuple rendering, not the two
raw checksum bytes. -/
def generate_fletcher_checksum (payload : List Nat) : List Nat :=
  tupleRepr (fletcherPair payload).1 (fletcherPair payload).2

theorem generate_fletcher_checksum_length_ge (payload : List Nat) :
    6 ≤ (generate_fletcher_checksum payload).length :=
  tupleRepr_length_ge _ _

/-! ## Flags and bit masks -/

/-- The loop in `Flag.__init__`: for `i` in `xrange(start, stop)`,
`mask |= 0x01 << i`.  `maskLoop m i n` runs `n` more iterations starting
at bit `i` with accumulator `m`. -/
def maskLoop : Nat → Nat → Nat → Nat
  | m, _, 0 => m
  | m, i, n + 1 => maskLoop (m ||| (1 <<< i)) (i + 1) n

/-- The precomputed `_mask` of a `Flag` with the given start/stop bits. -/
def buildMask (start stop : Nat) : Nat := maskLoop 0 start (stop - start)

/-- A constructed `Flag` object (slots `name`, `_start`, `_stop`, `_mask`). -/
structure FlagT where
  name : String
  start : Nat
  stop : Nat
  mask : Nat
deriving DecidableEq, Repr

/-- `Flag.__init__`: validates `0 <= start`, `start <= stop`, `stop <= 4*8`,
then precomputes the mask.  Python integer arguments are embedded as `Int`. -/
def Flag_init (name : String) (start stop : Int) : Except String FlagT :=
  if 0 > start then .error "the start index must be greater than 0"
  else if start > stop then .error "the start index must not exceed the stop index"
  else if stop > 4 * 8 then .error "the stop index must be less than 4 bytes wide"
  else .ok { name := name, start := start.toNat, stop := stop.toNat,
             mask := buildMask start.toNat stop.toNat }

/-- `Flag.parse`: returns `(name, (value & mask) >> start)`. -/
def Flag_parse (f : FlagT) (value : Nat) : String × Nat :=
  (f.name, (value &&& f.mask) >>> f.start)

theorem maskLoop_eq (n : Nat) : ∀ m i, maskLoop m i n = m ||| ((2 ^ n - 1) <<< i) := by
  induction n with
  | zero =>
    intro m i
    simp [maskLoop]
  | succ n ih =>
    intro m i
    rw [maskLoop, ih]
    apply Nat.eq_of_testBit_eq
    intro j
    have h1 : (1 : Nat) = 2 ^ 1 - 1 := by norm_num
    rw [h1]
    simp only [Nat.testBit_or, Nat.testBit_shiftLeft, Nat.testBit_two_pow_sub_one]
    rw [Bool.eq_iff_iff]
    simp only [Bool.or_eq_true, Bool.and_eq_true, decide_eq_true_eq]
    cases hP : m.testBit j <;> simp [hP] <;> omega

theorem buildMask_eq (start stop : Nat) :
    buildMask start stop = ((2 ^ (stop - start)) - 1) <<< start := by
  rw [buildMask, maskLoop_eq]
  simp [Nat.zero_or]

theorem and_shiftLeft_shiftRight (w q s : Nat) :
    (w &&& (q <<< s)) >>> s = (w >>> s) &&& q := by
  apply Nat.eq_of_testBit_eq
  intro j
  simp only [Nat.testBit_shiftRight, Nat.testBit_and, Nat.testBit_shiftLeft]
  have h : s ≤ s + j := Nat.le_add_right s j
  simp [h, Nat.add_sub_cancel_left]

/-- C5: for every Flag with `0 <= start < stop <= 32` and every word `w`,
construction succeeds and `Flag.parse` extracts exactly the bit range
`[start, stop)`: `(w >> start) & ((1 << (stop - start)) - 1)`. -/
theorem flag_parse_extracts_bit_range (name : String) (start stop : Int) (w : Nat)
    (h0 : 0 ≤ start) (h1 : start < stop) (h2 : stop ≤ 32) :
    ∃ f, Flag_init name start stop = .ok f ∧
      Flag_parse f w = (name, (w >>> start.toNat) &&& ((1 <<< (stop - start).toNat) - 1)) := by
  have hinit : Flag_init name start stop =
      .ok { name := name, start := start.toNat, stop := stop.toNat,
            mask := buildMask start.toNat stop.toNat } := by
    rw [Flag_init, if_neg (by omega), if_neg (by omega), if_neg (by omega)]
  refine ⟨_, hinit, ?_⟩
  rw [Flag_parse]
  simp only [buildMask_eq]
  rw [and_shiftLeft_shiftRight]
  have hss : stop.toNat - start.toNat = (stop - start).toNat := by omega
  rw [hss, Nat.one_shiftLeft]

/-- Witness for `flag_parse_extracts_bit_range` at the spec example:
start 2, stop 5, word 0x2C extracts the value 3. -/
theorem flag_parse_extracts_bit_range_witness :
    ∃ f, Flag_init "fixType" 2 5 = .ok f ∧
      Flag_parse f 0x2C = ("fixType", (0x2C >>> (2 : Int).toNat) &&& ((1 <<< ((5 : Int) - 2).toNat) - 1)) :=
  flag_parse_extracts_bit_range "fixType" 2 5 0x2C (by decide) (by decide) (by decide)

/-! ## Descriptors -/

/-- A decoded value.  Python ints become `vint`; `struct` float values are
kept as their little-endian bit patterns in `vraw`; raw one-byte values of
format `c` and undecoded byte runs of format `s` are `vbytes`; a decoded
ASCII string is `vstr` (byte values of its characters); a list value is
`vlist`; a namedtuple (with its type name) is `vrec`. -/
inductive Value where
  | vint (i : Int)
  | vraw (bits : Nat)
  | vbytes (bs : List Nat)
  | vstr (s : List Nat)
  | vlist (vs : List Value)
  | vrec (tyName : String) (items : List (String × Value))

/-- A non-repeated descriptor: `PadByte`, `Field` or `BitField` from the
source (constructor arguments mirror the objects' slots). -/
inductive SimpleDescr where
  | padByte (rpt : Nat)
  | field (name : String) (type_ : String) (len_ : Int)
  | bitField (name : String) (type_ : String) (subfields : List FlagT)
deriving DecidableEq, Repr

/-- A message-level descriptor: a simple descriptor or a `RepeatedBlock`
(whose inner fields are non-repeated descriptors, as in the data sheet
schemas; the source validates that a message has at most one block). -/
inductive Descr where
  | simple (d : SimpleDescr)
  | repeatedBlock (name : String) (fields : List SimpleDescr)
deriving DecidableEq, Repr

/-- `Field.__types__`: the valid scalar type codes. -/
def fieldTypes : List String :=
  ["U1", "I1", "U2", "I2", "U4", "I4", "R4", "R8", "C", "S"]

/-- Byte size of one `struct` element of a `Field` type code
(`B b H h I i f d c s` respectively, standard sizes). -/
def charSize (t : String) : Nat :=
  if t = "U1" ∨ t = "I1" ∨ t = "C" ∨ t = "S" then 1
  else if t = "U2" ∨ t = "I2" then 2
  else if t = "U4" ∨ t = "I4" ∨ t = "R4" then 4
  else if t = "R8" then 8
  else 0

/-- Byte size of a `BitField` word (`X1`/`X2`/`X4` are `B`/`H`/`I`). -/
def xSize (t : String) : Nat :=
  if t = "X1" then 1 else if t = "X2" then 2 else if t = "X4" then 4 else 0

/-- The element count contributed to the format string by `Field.fmt`:
`(str(len) if len > 1 else '') + char`, so a count prefix only for
`len_ > 1`; any `len_ <= 1` (including the invalid negatives that
`Field.__init__` fails to reject) yields a single element. -/
def elemCount (len_ : Int) : Nat := if len_ > 1 then len_.toNat else 1

/-- PACKED size of one simple descriptor's format string: the bytes its
own elements occupy, excluding any alignment padding inserted before it.
This is also the number of bytes `struct.unpack` consumes for the
descriptor's elements once the cursor is aligned. -/
def simpleSize : SimpleDescr → Nat
  | .padByte r => r + 1
  | .field _ t l => elemCount l * charSize t
  | .bitField _ t _ => xSize t

/-- Native alignment of a simple descriptor's (first) element: equal to
the element size for numeric codes on x86-64, and 1 for the pad, char and
byte-string codes. -/
def simpleAlign : SimpleDescr → Nat
  | .padByte _ => 1
  | .field _ t _ => if t = "S" then 1 else charSize t
  | .bitField _ t _ => xSize t

/-- Packed size of the non-repeated part of a descriptor: a repeated
block contributes none.  This is the `B` summand of the spec's
`B + (k+1)*R` law (which ignores alignment padding). -/
def descrBase : Descr → Nat
  | .simple d => simpleSize d
  | .repeatedBlock _ _ => 0

/-- Packed size of one repetition of a descriptor: zero for simple
descriptors, the summed inner packed sizes for a repeated block — the `R`
of the spec's `B + (k+1)*R` law. -/
def descrUnit : Descr → Nat
  | .simple _ => 0
  | .repeatedBlock _ fs => (fs.map simpleSize).sum

/-- The smallest multiple-of-`a` offset that is >= `ofs` (identity for
alignment 0 or 1): where native `struct` places an element of alignment
`a` when the cursor is at `ofs`. -/
def alignTo (ofs a : Nat) : Nat :=
  if a ≤ 1 then ofs else ofs + (a - ofs % a) % a

/-- Offset after one simple descriptor placed at `ofs` by a prefix-free
(native-alignment) format: pad up to the element alignment, then the
packed size.  A multi-element numeric field stays contiguous after the
first element is aligned, since the offset is then a multiple of the
element size. -/
def simpleAdvance (ofs : Nat) (d : SimpleDescr) : Nat :=
  alignTo ofs (simpleAlign d) + simpleSize d

/-- Offset after a run of simple descriptors starting at `ofs`. -/
def simplesAdvance (fs : List SimpleDescr) (ofs : Nat) : Nat :=
  fs.foldl simpleAdvance ofs

/-- Offset after `n` repetitions of a repeated block's inner descriptors
starting at `ofs` (padding is re-inserted before each repetition as the
running offset dictates, exactly as `calcsize` does on the repeated
format text). -/
def blockAdvance (fs : List SimpleDescr) : Nat → Nat → Nat
  | 0, ofs => ofs
  | n + 1, ofs => blockAdvance fs n (simplesAdvance fs ofs)

/-- A `Message` schema object: id, name, ordered descriptor list. -/
structure Message where
  id_ : Nat
  name : String
  fields : List Descr
deriving DecidableEq, Repr

/-- Whether a descriptor is a repeated block (`repeated_block` property). -/
def isRepBlock : Descr → Bool
  | .simple _ => false
  | .repeatedBlock _ _ => true

/-- Whether the message has a repeated block (`_repeated_block is not None`). -/
def hasRepBlock (m : Message) : Bool := m.fields.any isRepBlock

/-- Offset after one message-level descriptor with the repeat slot at `k`
(`RepeatedBlock.fmt` repeats its inner format `k + 1` times). -/
def descrAdvance (k ofs : Nat) : Descr → Nat
  | .simple d => simpleAdvance ofs d
  | .repeatedBlock _ fs => blockAdvance fs (k + 1) ofs

/-- `struct.calcsize(self.fmt)` for the whole message when the repeat
slot holds `k`: the source's format strings have no byte-order prefix, so
CPython sizes them with native alignment — `calcsize` is the final offset
of the left-to-right placement fold (there is no trailing padding). -/
def msgSize (m : Message) (k : Nat) : Nat := m.fields.foldl (descrAdvance k) 0

/-- Packed size of the non-repeated descriptors: the `B` of the spec's
`B + (k+1)*R` law. -/
def baseSize (m : Message) : Nat := (m.fields.map descrBase).sum

/-- Packed size of one repetition of the message's repeated block: the
`R` of the spec's law; zero when there is no block. -/
def blockUnit (m : Message) : Nat := (m.fields.map descrUnit).sum

/-! ## Repeat-count resolution (the while loop of `Message.parse`) -/

/-- Message-level decode errors. `lengthMismatch expected actual` is the
`ValueError` of `Message.parse` (expected = `struct.calcsize(self.fmt)` at
raise time, actual = payload length); `noTermination` marks exhaustion of
the fuel that stands in for the source's unbounded `while True` loop;
`structError` is a `struct.error`; `fieldError` is any exception escaping a
field's `parse` (`StopIteration`, `NameError` on the undefined `double`,
`UnicodeDecodeError`, ...). -/
inductive MsgErr where
  | lengthMismatch (expected actual : Nat)
  | noTermination
  | structError
  | fieldError
deriving DecidableEq, Repr

/-- The `while True` loop of `Message.parse`, with the repeated block's
`repeat` slot threaded as `k`: break when `calcsize == L`; raise
`lengthMismatch` when `calcsize > L`; otherwise `repeat += 1`, which
raises `lengthMismatch` too when there is no block (`AttributeError`
handler).  Returns the loop result together with the final value of the
`repeat` slot.  `fuel` bounds the number of iterations. -/
def Message_resolve (m : Message) (L : Nat) : Nat → Nat → Except MsgErr Nat × Nat
  | 0, k => (.error .noTermination, k)
  | fuel + 1, k =>
    if msgSize m k = L then (.ok k, k)
    else if L < msgSize m k then (.error (.lengthMismatch (msgSize m k) L), k)
    else if hasRepBlock m then Message_resolve m L fuel (k + 1)
    else (.error (.lengthMismatch (msgSize m k) L), k)

theorem Message_resolve_ok (m : Message) (L : Nat) :
    ∀ fuel k j s, Message_resolve m L fuel k = (.ok j, s) → msgSize m j = L ∧ s = j := by
  intro fuel
  induction fuel with
  | zero => intro k j s h; simp [Message_resolve] at h
  | succ n ih =>
    intro k j s h
    rw [Message_resolve] at h
    split at h
    · rename_i heq
      simp only [Prod.mk.injEq, Except.ok.injEq] at h
      obtain ⟨h1, h2⟩ := h
      subst h1; subst h2
      exact ⟨heq, rfl⟩
    · split at h
      · simp at h
      · split at h
        · exact ih _ _ _ h
        · simp at h

theorem Message_resolve_err_values (m : Message) (L : Nat)
    (hb : hasRepBlock m = true) :
    ∀ fuel k e a s, Message_resolve m L fuel k = (.error (.lengthMismatch e a), s) →
      a = L ∧ L < e := by
  intro fuel
  induction fuel with
  | zero => intro k e a s h; simp [Message_resolve] at h
  | succ n ih =>
    intro k e a s h
    rw [Message_resolve] at h
    split at h
    · simp at h
    · split at h
      · rename_i hne hlt
        simp only [Prod.mk.injEq, Except.error.injEq, MsgErr.lengthMismatch.injEq] at h
        omega
      · exact ih _ _ _ _ h

theorem msgSize_mono_le (m : Message)
    (hmono : ∀ j, msgSize m j < msgSize m (j + 1)) :
    ∀ i j, i ≤ j → msgSize m i ≤ msgSize m j := by
  intro i j hij
  induction hij with
  | refl => exact Nat.le_refl _
  | step h ih => exact Nat.le_trans ih (Nat.le_of_lt (hmono _))

theorem msgSize_mono_lt (m : Message)
    (hmono : ∀ j, msgSize m j < msgSize m (j + 1)) :
    ∀ i j, i < j → msgSize m i < msgSize m j := by
  intro i j hij
  have h1 := hmono i
  have h2 := msgSize_mono_le m hmono (i + 1) j hij
  omega

theorem msgSize_self_le (m : Message)
    (hmono : ∀ j, msgSize m j < msgSize m (j + 1)) :
    ∀ j, j ≤ msgSize m j := by
  intro j
  induction j with
  | zero => exact Nat.zero_le _
  | succ n ih =>
    have := hmono n
    omega

theorem Message_resolve_err_no_sol (m : Message) (L : Nat)
    (hb : hasRepBlock m = true)
    (hmono : ∀ j, msgSize m j < msgSize m (j + 1)) :
    ∀ fuel k e a s, Message_resolve m L fuel k = (.error (.lengthMismatch e a), s) →
      ∀ n, k ≤ n → L ≠ msgSize m n := by
  intro fuel
  induction fuel with
  | zero => intro k e a s h; simp [Message_resolve] at h
  | succ f ih =>
    intro k e a s h
    rw [Message_resolve] at h
    split at h
    · simp at h
    · split at h
      · rename_i hne hlt
        intro n hn
        have : msgSize m k ≤ msgSize m n := msgSize_mono_le m hmono k n hn
        omega
      · rename_i hne hlt
        intro n hn
        rcases Nat.lt_or_ge k n with h2 | h2
        · exact ih _ _ _ _ h n h2
        · have hnk : n = k := by omega
          subst hnk
          exact fun hc => hne hc.symm

theorem Message_resolve_complete (m : Message) (L : Nat)
    (hb : hasRepBlock m = true)
    (hmono : ∀ j, msgSize m j < msgSize m (j + 1)) :
    ∀ fuel k n, msgSize m n = L → k ≤ n → n + 1 ≤ k + fuel →
      Message_resolve m L fuel k = (.ok n, n) := by
  intro fuel
  induction fuel with
  | zero => intro k n hL hk hf; omega
  | succ f ih =>
    intro k n hL hk hf
    rw [Message_resolve]
    rcases Nat.eq_or_lt_of_le hk with hkn | hkn
    · subst hkn
      rw [if_pos hL]
    · have hlt : msgSize m k < L := by
        have := msgSize_mono_lt m hmono k n hkn
        omega
      rw [if_neg (by omega), if_neg (by omega), if_pos hb]
      exact ih (k + 1) n hL (by omega) (by omega)

theorem Message_resolve_err_complete (m : Message) (L : Nat)
    (hb : hasRepBlock m = true)
    (hmono : ∀ j, msgSize m j < msgSize m (j + 1))
    (hno : ∀ n, L ≠ msgSize m n) :
    ∀ fuel k, (k = 0 ∨ msgSize m (k - 1) < L) → L < k + fuel →
      ∃ e a s, Message_resolve m L fuel k = (.error (.lengthMismatch e a), s) := by
  intro fuel
  induction fuel with
  | zero =>
    intro k hk hLf
    rcases hk with rfl | hk
    · omega
    · have h1 := msgSize_self_le m hmono (k - 1)
      omega
  | succ f ih =>
    intro k hk hLf
    rw [Message_resolve]
    have hne : msgSize m k ≠ L := fun hc => hno k hc.symm
    rw [if_neg hne]
    rcases Nat.lt_or_ge L (msgSize m k) with hlt | hge
    · rw [if_pos hlt]
      exact ⟨msgSize m k, L, k, rfl⟩
    · rw [if_neg (by omega), if_pos hb]
      apply ih (k + 1)
      · right
        have hlt2 : msgSize m k < L := by omega
        simpa using hlt2
      · omega

/-! ## struct.unpack phase

`Message.parse` first runs `struct.unpack(self.fmt, payload)` producing a
flat tuple of values, then hands an iterator over that tuple to the
descriptors' `parse` methods.  The two phases are embedded separately so
that (as in the source) a descriptor whose `parse` consumes a different
number of items than its format contributes simply desynchronizes the
iterator instead of failing. -/

/-- Little-endian unsigned value of a byte run. -/
def leNat (bs : List Nat) : Nat := bs.foldr (fun b acc => b + 256 * acc) 0

/-- Two's-complement reading of an unsigned `width`-byte value. -/
def toSigned (n width : Nat) : Int :=
  if n < 2 ^ (8 * width - 1) then (n : Int) else (n : Int) - 2 ^ (8 * width)

/-- The `struct` value of one element chunk of a `Field` type code. -/
def chunkVal (t : String) (chunk : List Nat) : Value :=
  if t = "U1" ∨ t = "U2" ∨ t = "U4" then .vint (leNat chunk)
  else if t = "I1" ∨ t = "I2" ∨ t = "I4" then .vint (toSigned (leNat chunk) (charSize t))
  else if t = "R4" ∨ t = "R8" then .vraw (leNat chunk)
  else .vbytes chunk

/-- Unpack `n` elements of a `Field` type code from the byte cursor. -/
def unpackElems (t : String) : Nat → List Nat → Except MsgErr (List Value × List Nat)
  | 0, bs => .ok ([], bs)
  | n + 1, bs =>
    if charSize t = 0 then .error .structError
    else if charSize t ≤ bs.length then
      match unpackElems t n (bs.drop (charSize t)) with
      | .ok (vs, rest) => .ok (chunkVal t (bs.take (charSize t)) :: vs, rest)
      | .error e => .error e
    else .error .structError

/-- Unpack the `struct` values contributed by one simple descriptor whose
first element sits at the byte cursor (i.e. after any alignment padding
has been skipped — the elements of one descriptor are then contiguous):
a pad contributes no value and skips its bytes; a `Field` of string kind
(`Ns`) is a single byte-run value; other `Field`s are `elemCount` values;
a `BitField` is one unsigned word. -/
def unpackSimple : SimpleDescr → List Nat → Except MsgErr (List Value × List Nat)
  | .padByte r, bs =>
    if r + 1 ≤ bs.length then .ok ([], bs.drop (r + 1)) else .error .structError
  | .field _ t l, bs =>
    if t = "S" then
      if elemCount l ≤ bs.length then
        .ok ([.vbytes (bs.take (elemCount l))], bs.drop (elemCount l))
      else .error .structError
    else unpackElems t (elemCount l) bs
  | .bitField _ t _, bs =>
    if xSize t = 0 then .error .structError
    else if xSize t ≤ bs.length then
      .ok ([.vint (leNat (bs.take (xSize t)))], bs.drop (xSize t))
    else .error .structError

/-- Unpack one simple descriptor at absolute offset `ofs`: skip the
alignment pad bytes native `struct` inserts before its first element,
then read the descriptor's elements; returns the values, the offset after
the descriptor and the remaining bytes. -/
def unpackSimpleAt (d : SimpleDescr) (ofs : Nat) (bs : List Nat) :
    Except MsgErr (List Value × Nat × List Nat) :=
  let pad := alignTo ofs (simpleAlign d) - ofs
  if pad ≤ bs.length then
    match unpackSimple d (bs.drop pad) with
    | .error e => .error e
    | .ok (vs, rest) => .ok (vs, alignTo ofs (simpleAlign d) + simpleSize d, rest)
  else .error .structError

/-- Unpack a list of simple descriptors in order from offset `ofs`. -/
def unpackSimplesAt : List SimpleDescr → Nat → List Nat → Except MsgErr (List Value × Nat × List Nat)
  | [], ofs, bs => .ok ([], ofs, bs)
  | d :: ds, ofs, bs =>
    match unpackSimpleAt d ofs bs with
    | .error e => .error e
    | .ok (vs, ofs1, bs1) =>
      match unpackSimplesAt ds ofs1 bs1 with
      | .error e => .error e
      | .ok (vs2, ofs2, bs2) => .ok (vs ++ vs2, ofs2, bs2)

/-- Unpack `reps` repetitions of a repeated block's inner descriptors,
carrying the offset so that padding is re-inserted before each repetition
as the running offset dictates. -/
def unpackBlockRepsAt (fs : List SimpleDescr) : Nat → Nat → List Nat → Except MsgErr (List Value × Nat × List Nat)
  | 0, ofs, bs => .ok ([], ofs, bs)
  | n + 1, ofs, bs =>
    match unpackSimplesAt fs ofs bs with
    | .error e => .error e
    | .ok (vs, ofs1, bs1) =>
      match unpackBlockRepsAt fs n ofs1 bs1 with
      | .error e => .error e
      | .ok (vs2, ofs2, bs2) => .ok (vs ++ vs2, ofs2, bs2)

/-- Unpack the whole message format with the repeat slot at `k` (a
repeated block contributes `k + 1` copies of its inner format), starting
at offset `ofs`. -/
def unpackFieldsAt : List Descr → Nat → Nat → List Nat → Except MsgErr (List Value × Nat × List Nat)
  | [], _, ofs, bs => .ok ([], ofs, bs)
  | .simple d :: ds, k, ofs, bs =>
    match unpackSimpleAt d ofs bs with
    | .error e => .error e
    | .ok (vs, ofs1, bs1) =>
      match unpackFieldsAt ds k ofs1 bs1 with
      | .error e => .error e
      | .ok (vs2, ofs2, bs2) => .ok (vs ++ vs2, ofs2, bs2)
  | .repeatedBlock _ fs :: ds, k, ofs, bs =>
    match unpackBlockRepsAt fs (k + 1) ofs bs with
    | .error e => .error e
    | .ok (vs, ofs1, bs1) =>
      match unpackFieldsAt ds k ofs1 bs1 with
      | .error e => .error e
      | .ok (vs2, ofs2, bs2) => .ok (vs ++ vs2, ofs2, bs2)

/-! ## Field parse phase (iterator over unpacked values) -/

/-- Python `bytes.rstrip(b"\x00")` on the byte values of a string field. -/
def rstrip0 (bs : List Nat) : List Nat :=
  (bs.reverse.dropWhile (fun b => b = 0)).reverse

/-- `Field.parse`: pulls `1 if type == S else len_` items from the iterator
(a `len_ <= 0` pulls none and yields an empty list), converts according to
the type code (`int` on integer kinds; `float` on `R4`; the undefined name
`double` on `R8` raises; ASCII-decode and NUL-strip on `S`), and returns
`(name, value)` with a bare value for a single element. -/
def Field_parse (name t : String) (l : Int) (it : List Value) :
    Except MsgErr (Option (String × Value) × List Value) :=
  let len : Int := if t = "S" then 1 else l
  let n : Nat := len.toNat
  if n ≤ it.length then
    let resp := it.take n
    let rest := it.drop n
    if t = "R8" ∧ n ≠ 0 then .error .fieldError
    else if t = "S" then
      match resp with
      | [.vbytes bs] =>
        if bs.all (fun b => b < 128) then .ok (some (name, .vstr (rstrip0 bs)), rest)
        else .error .fieldError
      | _ => .error .fieldError
    else if (t = "U1" ∨ t = "I1" ∨ t = "U2" ∨ t = "I2" ∨ t = "U4" ∨ t = "I4")
        ∧ ¬ resp.all (fun v => match v with | .vint _ => true | _ => false) then
      .error .fieldError
    else if t = "R4"
        ∧ ¬ resp.all (fun v => match v with | .vraw _ => true | _ => false) then
      .error .fieldError
    else
      .ok (some (name, if len = 1 then resp.headD (.vint 0) else .vlist resp), rest)
  else .error .fieldError

/-- One simple descriptor's `parse` call against the iterator:
`PadByte.parse` discards nothing from the iterator and contributes no
field; `Field.parse` and `BitField.parse` as in the source. -/
def simpleParse : SimpleDescr → List Value → Except MsgErr (Option (String × Value) × List Value)
  | .padByte _, it => .ok (none, it)
  | .field name t l, it => Field_parse name t l it
  | .bitField name _ flags, it =>
    match it with
    | .vint w :: rest =>
      .ok (some (name, .vrec name (flags.map (fun f => (f.name, .vint ((w.toNat &&& f.mask) >>> f.start))))), rest)
    | _ => .error .fieldError

/-- Parse a list of simple descriptors, dropping `None`-named results
(the dict comprehension filter of the source). -/
def parseSimples : List SimpleDescr → List Value → Except MsgErr (List (String × Value) × List Value)
  | [], it => .ok ([], it)
  | d :: ds, it =>
    match simpleParse d it with
    | .error e => .error e
    | .ok (item, it1) =>
      match parseSimples ds it1 with
      | .error e => .error e
      | .ok (items, it2) =>
        .ok ((match item with | some x => [x] | none => []) ++ items, it2)

/-- `RepeatedBlock.parse`: `repeat + 1` passes over the inner descriptors,
each pass producing one namedtuple. -/
def repBlockIter (blkName : String) (fs : List SimpleDescr) :
    Nat → List Value → Except MsgErr (List Value × List Value)
  | 0, it => .ok ([], it)
  | n + 1, it =>
    match parseSimples fs it with
    | .error e => .error e
    | .ok (items, it1) =>
      match repBlockIter blkName fs n it1 with
      | .error e => .error e
      | .ok (recs, it2) => .ok (.vrec blkName items :: recs, it2)

/-- Apply every descriptor's `parse` in order with the repeat slot at `k`. -/
def parseFields : List Descr → Nat → List Value → Except MsgErr (List (String × Value) × List Value)
  | [], _, it => .ok ([], it)
  | .simple d :: ds, k, it =>
    match simpleParse d it with
    | .error e => .error e
    | .ok (item, it1) =>
      match parseFields ds k it1 with
      | .error e => .error e
      | .ok (items, it2) =>
        .ok ((match item with | some x => [x] | none => []) ++ items, it2)
  | .repeatedBlock name fs :: ds, k, it =>
    match repBlockIter name fs (k + 1) it with
    | .error e => .error e
    | .ok (recs, it1) =>
      match parseFields ds k it1 with
      | .error e => .error e
      | .ok (items, it2) => .ok ((name, .vlist recs) :: items, it2)

/-- The unpack-then-parse body of `Message.parse` once the repeat count is
resolved to `k` (`struct.unpack` starts at offset 0 of the payload). -/
def parseBody (m : Message) (k : Nat) (payload : List Nat) : Except MsgErr (String × Value) :=
  match unpackFieldsAt m.fields k 0 payload with
  | .error e => .error e
  | .ok (values, _, _) =>
    match parseFields m.fields k values with
    | .error e => .error e
    | .ok (items, _) => .ok (m.name, .vrec m.name items)

/-- `Message.parse`.  `rIn` is the value of the shared repeated block's
`repeat` slot before the call; the second component of the result is its
value after the call (the method starts by resetting it to 0 when a block
exists, then the resolution loop increments it; a message without a block
leaves it untouched).  The fuel `payload.length + 1` suffices for every
terminating run of the source loop. -/
def Message_parse (m : Message) (rIn : Nat) (payload : List Nat) :
    Except MsgErr (String × Value) × Nat :=
  match Message_resolve m payload.length (payload.length + 1) 0 with
  | (.ok k, kf) => (parseBody m k payload, if hasRepBlock m then kf else rIn)
  | (.error e, kf) => (.error e, if hasRepBlock m then kf else rIn)

/-- `Field.__init__`: the length check on the source's line 59 merely
evaluates `ValueError(...)` without `raise`, so it rejects nothing (and it
only tests `len_ < 0`, never `len_ < 1`); only the type-code check can
fail.  The field object is constructed with whatever `len_` was passed. -/
def Field_init (name type_ : String) (len_ : Int) : Except String SimpleDescr :=
  if type_ ∉ fieldTypes then .error "the provided type is not valid"
  else .ok (.field name type_ len_)

/-- A message schema with base size B = 2 (two U1 scalars) and a repeated
block of one-repetition size R = 4 (four U1 scalars). -/
def msgB2R4 : Message :=
  { id_ := 2, name := "TEST",
    fields := [
      .simple (.field "a" "U1" 1),
      .simple (.field "b" "U1" 1),
      .repeatedBlock "blk"
        [.field "c" "U1" 1, .field "d" "U1" 1, .field "e" "U1" 1, .field "f" "U1" 1] ] }

/-- A message schema with no repeated block (one U1 scalar). -/
def msgFixed : Message :=
  { id_ := 7, name := "FIXED", fields := [.simple (.field "g" "U1" 1)] }

/-- A schema mixing element widths: a U1 scalar followed by a
RepeatedBlock of [U2, U1].  Its packed sizes are B = 1 and R = 3, but
the native-aligned format `'B' + 'HB'*(k+1)` measures 5, 9, 13, ... -/
def msgMixed : Message :=
  { id_ := 3, name := "MIX",
    fields := [
      .simple (.field "a" "U1" 1),
      .repeatedBlock "blk" [.field "x" "U2" 1, .field "y" "U1" 1] ] }

/-- C3 counterexample: on the schema [U1; RepeatedBlock[U2, U1]] with
non-repeated size B = 1 and one-repetition size R = 3, the prefix-free
format makes the loop's totals `calcsize('B' + 'HB'*(k+1))` = 5, 9, 13
(native alignment pads before each U2), not B + (k+1)·R = 4, 7, 10: a
7-byte payload (7 = B + 2·R, which the claim says succeeds with 2
repetitions) is REJECTED with a length mismatch, while a 9-byte payload
(9 is NOT B plus a multiple of R, which the claim says must be rejected)
resolves successfully to 2 repetitions. -/
theorem repeat_resolution_alignment_counterexample :
    baseSize msgMixed = 1 ∧ blockUnit msgMixed = 3
    ∧ msgSize msgMixed 0 = 5 ∧ msgSize msgMixed 1 = 9
    ∧ (Message_parse msgMixed 0 [1, 2, 3, 4, 5, 6, 7]).1 = .error (.lengthMismatch 9 7)
    ∧ (Message_parse msgMixed 0 [1, 2, 3, 4, 5, 6, 7, 8, 9]).1 =
        .ok ("MIX", .vrec "MIX" [("a", .vint 1),
          ("blk", .vlist [
            .vrec "blk" [("x", .vint 1027), ("y", .vint 5)],
            .vrec "blk" [("x", .vint 2055), ("y", .vint 9)]])])
    ∧ (9 - baseSize msgMixed) % blockUnit msgMixed ≠ 0 := by
  refine ⟨by decide, by decide, by decide, by decide, rfl, rfl, by decide⟩

/-- C3 amended: the resolution loop of `Message.parse` tries
k = 0, 1, 2, ... with total = `struct.calcsize` of the format holding
k + 1 block repetitions — which, the format string having no byte-order
prefix, includes native alignment padding and need not equal B + (k+1)·R.
It succeeds with k + 1 repetitions exactly when total = L; provided each
extra repetition strictly grows the total (the aligned analog of R > 0),
it fails with a length-mismatch error exactly when no repetition count
realizes L, and any such error reports an expected size exceeding the
actual payload length L. -/
theorem repeat_resolution_by_calcsize (m : Message) (L k : Nat)
    (hb : hasRepBlock m = true)
    (hmono : ∀ j, msgSize m j < msgSize m (j + 1)) :
    ((Message_resolve m L (L + 1) 0).1 = .ok k ↔ msgSize m k = L)
    ∧ ((∃ e a, (Message_resolve m L (L + 1) 0).1 = .error (.lengthMismatch e a))
        ↔ ¬ ∃ n, msgSize m n = L)
    ∧ (∀ e a, (Message_resolve m L (L + 1) 0).1 = .error (.lengthMismatch e a) →
        a = L ∧ L < e) := by
  rcases hres : Message_resolve m L (L + 1) 0 with ⟨r, s⟩
  simp only
  refine ⟨⟨?_, ?_⟩, ⟨?_, ?_⟩, ?_⟩
  · intro hok
    rw [hok] at hres
    exact (Message_resolve_ok m L (L + 1) 0 k s hres).1
  · intro hL
    have h1 : k ≤ msgSize m k := msgSize_self_le m hmono k
    have h2 := Message_resolve_complete m L hb hmono (L + 1) 0 k hL
      (Nat.zero_le k) (by omega)
    rw [hres] at h2
    simp only [Prod.mk.injEq] at h2
    exact h2.1
  · rintro ⟨e, a, he⟩
    rw [he] at hres
    have hns := Message_resolve_err_no_sol m L hb hmono (L + 1) 0 e a s hres
    rintro ⟨n, hn⟩
    exact hns n (Nat.zero_le n) hn.symm
  · intro hno'
    have hno : ∀ n, L ≠ msgSize m n := fun n hc => hno' ⟨n, hc.symm⟩
    have h2 := Message_resolve_err_complete m L hb hmono hno (L + 1) 0
      (Or.inl rfl) (by omega)
    obtain ⟨e, a, s', hcalc⟩ := h2
    rw [hres] at hcalc
    simp only [Prod.mk.injEq] at hcalc
    exact ⟨e, a, hcalc.1⟩
  · intro e a he
    rw [he] at hres
    exact Message_resolve_err_values m L hb (L + 1) 0 e a s hres

theorem msgB2R4_blockAdvance (n : Nat) : ∀ ofs,
    blockAdvance [.field "c" "U1" 1, .field "d" "U1" 1, .field "e" "U1" 1, .field "f" "U1" 1]
      n ofs = ofs + 4 * n := by
  induction n with
  | zero => intro ofs; simp [blockAdvance]
  | succ i ih =>
    intro ofs
    rw [blockAdvance, ih]
    have h : simplesAdvance
        [.field "c" "U1" 1, .field "d" "U1" 1, .field "e" "U1" 1, .field "f" "U1" 1] ofs
        = ofs + 1 + 1 + 1 + 1 := rfl
    rw [h]
    omega

theorem msgB2R4_msgSize (k : Nat) : msgSize msgB2R4 k = 6 + 4 * k := by
  have h : msgSize msgB2R4 k =
      blockAdvance [.field "c" "U1" 1, .field "d" "U1" 1, .field "e" "U1" 1, .field "f" "U1" 1]
        (k + 1) 2 := rfl
  rw [h, msgB2R4_blockAdvance]
  omega

/-- Witness for `repeat_resolution_by_calcsize` on the all-U1 schema with
B = 2, R = 4 (aligned totals 6, 10, 14, strictly increasing) at payload
length 10 and k = 1. -/
theorem repeat_resolution_by_calcsize_witness :
    ((Message_resolve msgB2R4 10 (10 + 1) 0).1 = .ok 1 ↔ msgSize msgB2R4 1 = 10)
    ∧ ((∃ e a, (Message_resolve msgB2R4 10 (10 + 1) 0).1 = .error (.lengthMismatch e a))
        ↔ ¬ ∃ n, msgSize msgB2R4 n = 10)
    ∧ (∀ e a, (Message_resolve msgB2R4 10 (10 + 1) 0).1 = .error (.lengthMismatch e a) →
        a = 10 ∧ 10 < e) :=
  repeat_resolution_by_calcsize msgB2R4 10 1 (by decide)
    (fun j => by rw [msgB2R4_msgSize, msgB2R4_msgSize]; omega)

/-- C4 counterexample: on the B = 2, R = 4 schema the code REJECTS a
2-byte payload with a length mismatch (the loop starts at one repetition,
expecting 2 + 4 = 6 bytes), and a 6-byte payload decodes to ONE repetition
— refuting the claim that length 2 yields one repetition and length 6
yields two. -/
theorem repeat_counts_off_by_one_counterexample :
    baseSize msgB2R4 = 2 ∧ blockUnit msgB2R4 = 4
    ∧ (Message_parse msgB2R4 0 [1, 2]).1 = .error (.lengthMismatch 6 2)
    ∧ (Message_parse msgB2R4 0 [1, 2, 3, 4, 5, 6]).1 =
        .ok ("TEST", .vrec "TEST" [("a", .vint 1), ("b", .vint 2),
          ("blk", .vlist [.vrec "blk"
            [("c", .vint 3), ("d", .vint 4), ("e", .vint 5), ("f", .vint 6)]])]) :=
  ⟨by decide, by decide, rfl, rfl⟩

/-- C4 amended: on the B = 2, R = 4 schema, a 6-byte payload decodes with
1 repetition, a 10-byte payload with 2 repetitions, and payloads of length
2 and 8 fail with a length mismatch (reporting the expected size the loop
had reached). -/
theorem repeat_counts_on_B2_R4 :
    (Message_parse msgB2R4 0 [1, 2, 3, 4, 5, 6]).1 =
        .ok ("TEST", .vrec "TEST" [("a", .vint 1), ("b", .vint 2),
          ("blk", .vlist [.vrec "blk"
            [("c", .vint 3), ("d", .vint 4), ("e", .vint 5), ("f", .vint 6)]])])
    ∧ (Message_parse msgB2R4 0 [1, 2, 3, 4, 5, 6, 7, 8, 9, 10]).1 =
        .ok ("TEST", .vrec "TEST" [("a", .vint 1), ("b", .vint 2),
          ("blk", .vlist [
            .vrec "blk" [("c", .vint 3), ("d", .vint 4), ("e", .vint 5), ("f", .vint 6)],
            .vrec "blk" [("c", .vint 7), ("d", .vint 8), ("e", .vint 9), ("f", .vint 10)]])])
    ∧ (Message_parse msgB2R4 0 [1, 2]).1 = .error (.lengthMismatch 6 2)
    ∧ (Message_parse msgB2R4 0 [1, 2, 3, 4, 5, 6, 7, 8]).1 = .error (.lengthMismatch 10 8) :=
  ⟨rfl, rfl, rfl, rfl⟩

/-- C7 counterexample: `Message.parse` writes the resolved repeat count
onto the shared RepeatedBlock: with the repeat slot at 5 beforehand, a
10-byte payload on the B = 2, R = 4 schema leaves the slot at 1. -/
theorem parse_mutates_repeat_slot_counterexample :
    (Message_parse msgB2R4 5 [1, 2, 3, 4, 5, 6, 7, 8, 9, 10]).2 = 1
    ∧ (1 : Nat) ≠ 5 :=
  ⟨rfl, by decide⟩

/-- C7 amended: the only schema state `Message.parse` touches is the
repeated block's `repeat` slot: with no block the slot is untouched, and
with a block its post-call value is determined by the schema and payload
alone (the method resets it to 0 before resolving). -/
theorem parse_touches_only_repeat_slot (m : Message) (r : Nat) (payload : List Nat) :
    (hasRepBlock m = false → (Message_parse m r payload).2 = r)
    ∧ (hasRepBlock m = true → (Message_parse m r payload).2 = (Message_parse m 0 payload).2) := by
  constructor
  · intro hb
    simp only [Message_parse]
    rcases Message_resolve m payload.length (payload.length + 1) 0 with ⟨res, kf⟩
    cases res <;> simp [hb]
  · intro hb
    simp only [Message_parse]
    rcases Message_resolve m payload.length (payload.length + 1) 0 with ⟨res, kf⟩
    cases res <;> simp [hb]

/-- Witness for `parse_touches_only_repeat_slot`: no-block schema keeps
slot 5; the B = 2, R = 4 schema resolves independently of the prior 5. -/
theorem parse_touches_only_repeat_slot_witness :
    (Message_parse msgFixed 5 [9]).2 = 5
    ∧ (Message_parse msgB2R4 5 [1, 2, 3, 4, 5, 6, 7, 8, 9, 10]).2 =
        (Message_parse msgB2R4 0 [1, 2, 3, 4, 5, 6, 7, 8, 9, 10]).2 :=
  ⟨(parse_touches_only_repeat_slot msgFixed 5 [9]).1 (by decide),
   (parse_touches_only_repeat_slot msgB2R4 5 [1, 2, 3, 4, 5, 6, 7, 8, 9, 10]).2 (by decide)⟩

theorem Message_parse_fst_state_independent (m : Message) (r r' : Nat) (p : List Nat) :
    (Message_parse m r p).1 = (Message_parse m r' p).1 := by
  simp only [Message_parse]
  rcases Message_resolve m p.length (p.length + 1) 0 with ⟨res, kf⟩
  cases res <;> rfl

/-- C8: on a schema with a repeated block, decoding payload `p2` right
after decoding `p1` (which left its resolved repeat count on the shared
block) produces exactly the record a fresh schema (slot 0, as constructed)
would produce: the second decode is unaffected by the first. -/
theorem sequential_decodes_independent (m : Message) (r : Nat) (p1 p2 : List Nat)
    (hb : hasRepBlock m = true)
    (hdiff : (Message_parse m r p1).2 ≠ (Message_parse m r p2).2) :
    (Message_parse m (Message_parse m r p1).2 p2).1 = (Message_parse m 0 p2).1 :=
  Message_parse_fst_state_independent m _ 0 p2

/-- Witness for `sequential_decodes_independent`: decode a 10-byte then a
6-byte payload (2 then 1 repetitions) on the shared B = 2, R = 4 schema. -/
theorem sequential_decodes_independent_witness :
    (Message_parse msgB2R4
        (Message_parse msgB2R4 0 [1, 2, 3, 4, 5, 6, 7, 8, 9, 10]).2
        [1, 2, 3, 4, 5, 6]).1 =
      (Message_parse msgB2R4 0 [1, 2, 3, 4, 5, 6]).1 :=
  sequential_decodes_independent msgB2R4 0 [1, 2, 3, 4, 5, 6, 7, 8, 9, 10] [1, 2, 3, 4, 5, 6]
    (by decide) (by decide)

/-- C9: constructing a `Field` with a negative element count does NOT
fail: `Field.__init__` builds the `ValueError` without raising it, so the
constructor returns a usable field object for any `len_` whatsoever. -/
theorem field_init_accepts_invalid_len (len_ : Int) :
    Field_init "velN" "U1" len_ = .ok (.field "velN" "U1" len_) := by
  rw [Field_init, if_neg]
  simp [fieldTypes]

/-- C10: a `PadByte` constructed with `repeat = r` occupies `r + 1` bytes
of the wire format, its unpack skips exactly those bytes contributing no
value, its `parse` contributes no field (and consumes nothing), and the
default `PadByte()` occupies one byte. -/
theorem padbyte_occupies_repeat_plus_one (r : Nat) (bs : List Nat) (it : List Value)
    (h : r + 1 ≤ bs.length) :
    simpleSize (.padByte r) = r + 1
    ∧ unpackSimple (.padByte r) bs = .ok ([], bs.drop (r + 1))
    ∧ simpleParse (.padByte r) it = .ok (none, it)
    ∧ simpleSize (.padByte 0) = 1 := by
  refine ⟨rfl, ?_, rfl, rfl⟩
  rw [unpackSimple, if_pos h]

/-- Witness for `padbyte_occupies_repeat_plus_one` at r = 5 over 8 bytes. -/
theorem padbyte_occupies_repeat_plus_one_witness :
    simpleSize (.padByte 5) = 5 + 1
    ∧ unpackSimple (.padByte 5) [1, 2, 3, 4, 5, 6, 7, 8] =
        .ok ([], [1, 2, 3, 4, 5, 6, 7, 8].drop (5 + 1))
    ∧ simpleParse (.padByte 5) [] = .ok (none, [])
    ∧ simpleSize (.padByte 0) = 1 :=
  padbyte_occupies_repeat_plus_one 5 [1, 2, 3, 4, 5, 6, 7, 8] [] (by decide)

/-! ## Stream framing (`Parser`) -/

theorem take_len_append {α : Type} (l t : List α) : (l ++ t).take l.length = l := by
  induction l with
  | nil => simp
  | cons a l ih => simp [ih]

theorem drop_len_append {α : Type} (l t : List α) : (l ++ t).drop l.length = t := by
  induction l with
  | nil => simp
  | cons a l ih => simp [ih]

/-- Python `line[-n:]`: the last `n` elements (the whole list when it is
shorter than `n`). -/
def lastN (n : Nat) (l : List Nat) : List Nat := l.drop (l.length - n)

theorem lastN_length_le (n : Nat) (l : List Nat) : (lastN n l).length ≤ n := by
  simp [lastN]
  omega

/-- `Parser.PREFIX = str((0xB5, 0x62))`: the nine ASCII characters of the
text form of the tuple, NOT the two sync bytes. -/
def syncPrefixStr : List Nat := tupleRepr 0xB5 0x62

theorem syncPrefixStr_is_ascii_tuple :
    syncPrefixStr = [40, 49, 56, 49, 44, 32, 57, 56, 41] := by decide

/-- `Parser._read_until(stream, terminator, size)`: read one byte at a
time, appending to `line`; break when the last `len(terminator)` bytes
equal the terminator, when the optional size cap is reached, or when the
stream yields no byte.  Returns the bytes read and the remaining stream. -/
def read_until (term : List Nat) (size : Option Nat) :
    List Nat → List Nat → List Nat × List Nat
  | line, [] => (line, [])
  | line, c :: rest =>
    if lastN term.length (line ++ [c]) = term then (line ++ [c], rest)
    else if (match size with
        | some n => decide (n ≤ (line ++ [c]).length)
        | none => false) then
      (line ++ [c], rest)
    else read_until term size (line ++ [c]) rest

/-- The preamble loop of `Parser.receive_from` (entered when
`skippreamble` is false): repeatedly `_read_until(stream, PREFIX)` and
break out when the last two bytes of the returned buffer equal `PREFIX`.
The source loop is unbounded; `fuel` bounds the iterations here, and
`none` means the loop was still running when the fuel ran out. -/
def seek_sync : Nat → List Nat → Option (List Nat)
  | 0, _ => none
  | fuel + 1, s =>
    if lastN 2 (read_until syncPrefixStr none [] s).1 = syncPrefixStr then
      some (read_until syncPrefixStr none [] s).2
    else seek_sync fuel (read_until syncPrefixStr none [] s).2

/-- The two-byte suffix `buff[-2:]` can never equal the nine-character
`PREFIX` string, so the preamble loop never breaks, for any stream and
any number of iterations. -/
theorem seek_sync_none (fuel : Nat) : ∀ s, seek_sync fuel s = none := by
  induction fuel with
  | zero => intro s; rfl
  | succ f ih =>
    intro s
    rw [seek_sync]
    have hne : lastN 2 (read_until syncPrefixStr none [] s).1 ≠ syncPrefixStr := by
      intro h
      have h2 := lastN_length_le 2 (read_until syncPrefixStr none [] s).1
      rw [h] at h2
      have h9 : syncPrefixStr.length = 9 := by decide
      omega
    rw [if_neg hne]
    exact ih _

/-- A `Cls` schema object: class id, name and registered messages (the
source keeps a dict keyed by message id; registration order with
last-write-wins is preserved in the list). -/
structure Cls where
  id_ : Nat
  name : String
  messages : List Message
deriving DecidableEq, Repr

/-- A `Parser` object: its registered classes (dict keyed by class id). -/
structure Parser where
  classes : List Cls
deriving DecidableEq, Repr

/-- Dict lookup `self.classes[cid]` (last registration wins). -/
def findCls (p : Parser) (cid : Nat) : Option Cls :=
  p.classes.reverse.find? (fun c => c.id_ == cid)

/-- `msg_cls in self.classes`. -/
def parserContains (p : Parser) (cid : Nat) : Bool := (findCls p cid).isSome

/-- `msg_id in self.classes[msg_cls]`. -/
def msgRegistered (p : Parser) (cid mid : Nat) : Bool :=
  match findCls p cid with
  | some cl => cl.messages.any (fun ms => ms.id_ == mid)
  | none => false

/-- Stream-level errors of `Parser.receive_from`: `ioShort got expected`
is the `IOError` on a short read (with the byte counts the source puts in
the message); the two unsupported errors are the strict-mode
`ValueError`s; `checksumMismatch` is the checksum `ValueError`, carrying
the compared values (the computed textual tuple and the two raw bytes). -/
inductive RxErr where
  | ioShort (got expected : Nat)
  | unsupportedCls (msg cls : Nat)
  | unsupportedMsg (msg cls : Nat)
  | checksumMismatch (cal sup : List Nat)
deriving DecidableEq, Repr

/-- Non-error outcomes of the framing stage: the lenient-mode
`(None, None, None)` skip, or dispatch of `(msg_cls, msg_id, payload)` to
`self.classes[msg_cls].parse`. -/
inductive RxOut where
  | skipped
  | dispatch (cls msg : Nat) (payload : List Nat)
deriving DecidableEq, Repr

/-- The post-preamble part of `Parser.receive_from`: read the 4-byte
header `(class, id, length LE)`, check registration (before any payload
read: lenient mode returns the skip immediately), read `length` payload
bytes and 2 checksum bytes, compare `_generate_fletcher_checksum(buff)`
(a textual tuple) with the 2 raw checksum bytes, and otherwise dispatch.
Returns the outcome and the remaining stream. -/
def Parser_receive_body (p : Parser) (ign : Bool) :
    List Nat → Except RxErr RxOut × List Nat
  | b0 :: b1 :: b2 :: b3 :: s1 =>
    if parserContains p b0 = false then
      (if ign then (.ok .skipped, s1) else (.error (.unsupportedCls b1 b0), s1))
    else if msgRegistered p b0 b1 = false then
      (if ign then (.ok .skipped, s1) else (.error (.unsupportedMsg b1 b0), s1))
    else if (s1.take (b2 + 256 * b3)).length ≠ b2 + 256 * b3 then
      (.error (.ioShort (4 + (s1.take (b2 + 256 * b3)).length) (4 + (b2 + 256 * b3))),
       s1.drop (b2 + 256 * b3))
    else if ((s1.drop (b2 + 256 * b3)).take 2).length ≠ 2 then
      (.error (.ioShort (4 + (b2 + 256 * b3)) 2), (s1.drop (b2 + 256 * b3)).drop 2)
    else if generate_fletcher_checksum (b0 :: b1 :: b2 :: b3 :: s1.take (b2 + 256 * b3))
        ≠ (s1.drop (b2 + 256 * b3)).take 2 then
      (.error (.checksumMismatch
          (generate_fletcher_checksum (b0 :: b1 :: b2 :: b3 :: s1.take (b2 + 256 * b3)))
          ((s1.drop (b2 + 256 * b3)).take 2)),
       (s1.drop (b2 + 256 * b3)).drop 2)
    else
      (.ok (.dispatch b0 b1 (s1.take (b2 + 256 * b3))), (s1.drop (b2 + 256 * b3)).drop 2)
  | s => (.error (.ioShort s.length 4), [])

/-- `Parser.receive_from`: when `skippreamble` is false, first run the
preamble loop (`fuel` bounds its iterations; `none` = still looping),
then the header/payload/checksum stage. -/
def Parser_receive_from (p : Parser) (ign skippreamble : Bool) (fuel : Nat) (s : List Nat) :
    Option (Except RxErr RxOut × List Nat) :=
  if skippreamble then some (Parser_receive_body p ign s)
  else
    match seek_sync fuel s with
    | some rest => some (Parser_receive_body p ign rest)
    | none => none

/-- A parser with no registered classes. -/
def emptyParser : Parser := { classes := [] }

/-- A parser with one class (id 1) holding the B = 2, R = 4 message (id 2). -/
def smallParser : Parser :=
  { classes := [{ id_ := 1, name := "NAV", messages := [msgB2R4] }] }

theorem take_two {α : Type} (x y : α) (l : List α) : (x :: y :: l).take 2 = [x, y] := rfl

/-- C1: even a frame whose two trailing checksum bytes are EXACTLY the
running-sum pair over `[class, id, len_lo, len_hi, payload...]` fails:
`_generate_fletcher_checksum` returns the textual tuple `str((ck_a, ck_b))`
(at least 6 characters), which can never equal the 2 raw bytes read from
the stream, so `receive_from` raises the checksum-mismatch error on every
frame that reaches verification. -/
theorem checksum_always_mismatches (p : Parser) (ign : Bool)
    (c m l0 l1 : Nat) (pay rest : List Nat)
    (hpay : pay.length = l0 + 256 * l1)
    (hreg : parserContains p c = true)
    (hmsg : msgRegistered p c m = true) :
    Parser_receive_body p ign
        (c :: m :: l0 :: l1 :: (pay ++
          (fletcherPair (c :: m :: l0 :: l1 :: pay)).1 ::
          (fletcherPair (c :: m :: l0 :: l1 :: pay)).2 :: rest))
      = (.error (.checksumMismatch
          (generate_fletcher_checksum (c :: m :: l0 :: l1 :: pay))
          [(fletcherPair (c :: m :: l0 :: l1 :: pay)).1,
           (fletcherPair (c :: m :: l0 :: l1 :: pay)).2]), rest) := by
  have htake : (pay ++
      (fletcherPair (c :: m :: l0 :: l1 :: pay)).1 ::
      (fletcherPair (c :: m :: l0 :: l1 :: pay)).2 :: rest).take (l0 + 256 * l1) = pay := by
    rw [← hpay]
    exact take_len_append pay _
  have hdrop : (pay ++
      (fletcherPair (c :: m :: l0 :: l1 :: pay)).1 ::
      (fletcherPair (c :: m :: l0 :: l1 :: pay)).2 :: rest).drop (l0 + 256 * l1) =
      (fletcherPair (c :: m :: l0 :: l1 :: pay)).1 ::
      (fletcherPair (c :: m :: l0 :: l1 :: pay)).2 :: rest := by
    rw [← hpay]
    exact drop_len_append pay _
  have hne : generate_fletcher_checksum (c :: m :: l0 :: l1 :: pay)
      ≠ [(fletcherPair (c :: m :: l0 :: l1 :: pay)).1,
         (fletcherPair (c :: m :: l0 :: l1 :: pay)).2] := by
    intro h
    have h6 := generate_fletcher_checksum_length_ge (c :: m :: l0 :: l1 :: pay)
    rw [h] at h6
    simp at h6
  rw [Parser_receive_body]
  rw [hreg, hmsg]
  simp only [htake, hdrop, hpay, take_two]
  rw [if_neg (by simp), if_neg (by simp), if_neg (by simp), if_pos hne]
  rw [if_neg (by simp)]
  rfl

/-- Witness for `checksum_always_mismatches`: a registered frame
(class 1, message 2, 6-byte payload) carrying the correct running-sum
pair still raises the checksum mismatch. -/
theorem checksum_always_mismatches_witness :
    ([1, 2, 3, 4, 5, 6] : List Nat).length = 6 + 256 * 0
    ∧ parserContains smallParser 1 = true
    ∧ msgRegistered smallParser 1 2 = true
    ∧ Parser_receive_body smallParser false
        (1 :: 2 :: 6 :: 0 :: ([1, 2, 3, 4, 5, 6] ++
          (fletcherPair (1 :: 2 :: 6 :: 0 :: [1, 2, 3, 4, 5, 6])).1 ::
          (fletcherPair (1 :: 2 :: 6 :: 0 :: [1, 2, 3, 4, 5, 6])).2 :: []))
      = (.error (.checksumMismatch
          (generate_fletcher_checksum (1 :: 2 :: 6 :: 0 :: [1, 2, 3, 4, 5, 6]))
          [(fletcherPair (1 :: 2 :: 6 :: 0 :: [1, 2, 3, 4, 5, 6])).1,
           (fletcherPair (1 :: 2 :: 6 :: 0 :: [1, 2, 3, 4, 5, 6])).2]), []) :=
  ⟨by decide, by decide, by decide,
   checksum_always_mismatches smallParser false 1 2 6 0 [1, 2, 3, 4, 5, 6] []
     (by decide) (by decide) (by decide)⟩

/-- C2: with `skippreamble` false, `receive_from` never reaches the header
stage, for every parser, stream and number of preamble iterations: the
loop compares the last TWO bytes read against the nine-character
`str((0xB5, 0x62))` and so can never break out of the preamble search,
and end-of-data does not raise — `_read_until` just returns, so the loop
spins forever instead of failing with a stream-closed error. -/
theorem receive_from_never_passes_preamble (p : Parser) (ign : Bool)
    (fuel : Nat) (s : List Nat) :
    Parser_receive_from p ign false fuel s = none := by
  simp [Parser_receive_from, seek_sync_none]

/-- C6 counterexample: header `(class 1, id 2, length 3)` on a parser with
no registered classes, lenient mode: `receive_from` returns the skip
immediately, leaving all `length + 2 = 5` declared payload/checksum bytes
unconsumed on the stream — refuting the claim that lenient mode consumes
`length + 2` further bytes before returning. -/
theorem lenient_skip_consumes_nothing_counterexample :
    Parser_receive_body emptyParser true [1, 2, 3, 0, 7, 8, 9, 10, 11]
        = (.ok .skipped, [7, 8, 9, 10, 11])
    ∧ ([7, 8, 9, 10, 11] : List Nat).length = 3 + 2 :=
  ⟨rfl, by decide⟩

/-- C6 amended: on an unregistered `(class, id)` the check happens right
after the 4-byte header and BEFORE any payload read: lenient mode returns
the distinguishable skip with the payload and checksum bytes still on the
stream, and strict mode fails immediately with an unsupported-id error;
same input, different policy, different outcome. -/
theorem unsupported_id_policy (p : Parser) (c m l0 l1 : Nat) (tail : List Nat)
    (h : parserContains p c = false ∨ msgRegistered p c m = false) :
    Parser_receive_body p true (c :: m :: l0 :: l1 :: tail) = (.ok .skipped, tail)
    ∧ ∃ e, Parser_receive_body p false (c :: m :: l0 :: l1 :: tail) = (.error e, tail)
      ∧ (e = .unsupportedCls m c ∨ e = .unsupportedMsg m c) := by
  by_cases hc : parserContains p c = false
  · constructor
    · rw [Parser_receive_body, if_pos hc]
      rfl
    · exact ⟨.unsupportedCls m c, by rw [Parser_receive_body, if_pos hc]; rfl, Or.inl rfl⟩
  · have hm : msgRegistered p c m = false := by
      rcases h with h | h
      · exact absurd h hc
      · exact h
    constructor
    · rw [Parser_receive_body, if_neg hc, if_pos hm]
      rfl
    · exact ⟨.unsupportedMsg m c, by rw [Parser_receive_body, if_neg hc, if_pos hm]; rfl,
        Or.inr rfl⟩

/-- Witness for `unsupported_id_policy` on the empty registry. -/
theorem unsupported_id_policy_witness :
    (parserContains emptyParser 1 = false ∨ msgRegistered emptyParser 1 2 = false)
    ∧ (Parser_receive_body emptyParser true (1 :: 2 :: 3 :: 0 :: [7, 8, 9, 10, 11])
          = (.ok .skipped, [7, 8, 9, 10, 11])
      ∧ ∃ e, Parser_receive_body emptyParser false (1 :: 2 :: 3 :: 0 :: [7, 8, 9, 10, 11])
            = (.error e, [7, 8, 9, 10, 11])
          ∧ (e = .unsupportedCls 2 1 ∨ e = .unsupportedMsg 2 1)) :=
  ⟨by decide, unsupported_id_policy emptyParser 1 2 3 0 [7, 8, 9, 10, 11] (by decide)⟩

end Ublox
